import Mathlib

/-!
Verification of the contraction-mapping smallness verifier
(src/verify_gaps.py) against its natural-language specification.

Floating-point scalars are embedded as real numbers.  The outward-rounding
interval primitives and the ulp-guarded comparator are parametrised by an
abstract rounding model `Rnd`: it supplies the rounded arithmetic operations
(`fadd`, `fmul`, `fexp`, the results of the hardware operations inside the
primitives) together with the two nextafter nudges (`pred` toward negative
infinity, `succ` toward positive infinity), and records exactly the facts
that IEEE-754 arithmetic with correct (or faithful, for exp) rounding
guarantees: a one-step outward nudge of a rounded result brackets the true
value, rounding and the nudges are monotone, and rounding preserves signs
and order against exactly representable operands.  The identity model
`idRnd` (exact arithmetic, no rounding) is one instance, used to evaluate
the development on concrete inputs.  Scalar arithmetic appearing outside
the interval primitives is embedded exactly, as is standard.
-/

/-- Abstract model of the floating-point rounding that happens inside the
outward-rounded interval primitives and the ulp-guarded comparator. -/
structure Rnd where
  /-- nextafter toward negative infinity. -/
  pred : ℝ → ℝ
  /-- nextafter toward positive infinity. -/
  succ : ℝ → ℝ
  /-- Rounded addition, the value the machine returns for a + b. -/
  fadd : ℝ → ℝ → ℝ
  /-- Rounded multiplication. -/
  fmul : ℝ → ℝ → ℝ
  /-- Rounded exponential, the value math.exp returns. -/
  fexp : ℝ → ℝ
  pred_le : ∀ x, pred x ≤ x
  le_succ : ∀ x, x ≤ succ x
  pred_mono : ∀ x y, x ≤ y → pred x ≤ pred y
  succ_mono : ∀ x y, x ≤ y → succ x ≤ succ y
  /-- The float below a strictly positive float is nonnegative. -/
  pred_nonneg : ∀ x, 0 < x → 0 ≤ pred x
  /-- One outward step below a correctly rounded sum is below the true sum. -/
  pred_fadd : ∀ a b, pred (fadd a b) ≤ a + b
  /-- One outward step above a correctly rounded sum is above the true sum. -/
  fadd_succ : ∀ a b, a + b ≤ succ (fadd a b)
  pred_fmul : ∀ a b, pred (fmul a b) ≤ a * b
  fmul_succ : ∀ a b, a * b ≤ succ (fmul a b)
  pred_fexp : ∀ x, pred (fexp x) ≤ Real.exp x
  fexp_succ : ∀ x, Real.exp x ≤ succ (fexp x)
  /-- Correctly rounded addition is monotone in each argument. -/
  fadd_mono_right : ∀ a x y, x ≤ y → fadd a x ≤ fadd a y
  /-- Correctly rounded multiplication is monotone in the right argument
  when the left argument is nonnegative. -/
  fmul_mono_right : ∀ a, 0 ≤ a → ∀ x y, x ≤ y → fmul a x ≤ fmul a y
  /-- Correctly rounded multiplication is monotone in the left argument
  when the right argument is nonnegative. -/
  fmul_mono_left : ∀ b, 0 ≤ b → ∀ x y, x ≤ y → fmul x b ≤ fmul y b
  /-- Adding a nonnegative float to an exactly representable float does not
  round below the representable operand. -/
  le_fadd_right : ∀ a b, 0 ≤ b → a ≤ fadd a b

/-- The exact-arithmetic instance of the rounding model. -/
noncomputable def idRnd : Rnd where
  pred := fun x => x
  succ := fun x => x
  fadd := fun a b => a + b
  fmul := fun a b => a * b
  fexp := Real.exp
  pred_le := fun x => le_refl x
  le_succ := fun x => le_refl x
  pred_mono := fun _ _ h => h
  succ_mono := fun _ _ h => h
  pred_nonneg := fun _ hx => hx.le
  pred_fadd := fun _ _ => le_refl _
  fadd_succ := fun _ _ => le_refl _
  pred_fmul := fun _ _ => le_refl _
  fmul_succ := fun _ _ => le_refl _
  pred_fexp := fun _ => le_refl _
  fexp_succ := fun _ => le_refl _
  fadd_mono_right := fun a _ _ h => add_le_add_left h a
  fmul_mono_right := fun _ ha _ _ h => mul_le_mul_of_nonneg_left h ha
  fmul_mono_left := fun _ hb _ _ h => mul_le_mul_of_nonneg_right h hb
  le_fadd_right := fun _ _ hb => le_add_of_nonneg_right hb

/-- outward_mul from verify_gaps.py: all four corner products, minimum
nudged down, maximum nudged up. -/
def outward_mul (M : Rnd) (a b : ℝ × ℝ) : ℝ × ℝ :=
  let c1 := M.fmul a.1 b.1
  let c2 := M.fmul a.1 b.2
  let c3 := M.fmul a.2 b.1
  let c4 := M.fmul a.2 b.2
  (M.pred (min (min (min c1 c2) c3) c4), M.succ (max (max (max c1 c2) c3) c4))

/-- outward_add from verify_gaps.py. -/
def outward_add (M : Rnd) (a b : ℝ × ℝ) : ℝ × ℝ :=
  (M.pred (M.fadd a.1 b.1), M.succ (M.fadd a.2 b.2))

/-- outward_exp from verify_gaps.py. -/
def outward_exp (M : Rnd) (x : ℝ × ℝ) : ℝ × ℝ :=
  (M.pred (M.fexp x.1), M.succ (M.fexp x.2))

/-- le_verified from verify_gaps.py: nudge a down and b up, then compare. -/
def le_verified (M : Rnd) (a b : ℝ) : Prop :=
  M.pred a ≤ M.succ b

/-- The core_params block of a manifest; each JSON key may be absent. -/
structure CoreParams where
  gamma : Option ℝ
  t : Option ℝ

/-- One entry of the steps list of a ledger manifest. -/
structure Step where
  gamma : Option ℝ
  t : Option ℝ
  delta_tau : Option ℝ

/-- The stream_params block of a coupled-streams manifest. -/
structure StreamParams where
  kappa1 : Option ℝ
  kappa2 : Option ℝ
  eta1 : Option ℝ
  eta2 : Option ℝ

/-- A JSON manifest: every field may be absent. -/
structure Manifest where
  alpha : Option ℝ := none
  beta : Option ℝ := none
  sigma : Option ℝ := none
  delta_tau_min : Option ℝ := none
  c_P : Option ℝ := none
  core_params : Option CoreParams := none
  steps : Option (List Step) := none
  stream_params : Option StreamParams := none

/-- Python d[key]: the value when present, a KeyError otherwise. -/
def getKey {α : Type} (name : String) : Option α → Except String α
  | none => Except.error ("KeyError: " ++ name)
  | some x => Except.ok x

/-- core_banach_ok from verify_gaps.py.  The verdict is the Prop of the
comparison the code performs; the second component is the returned margin. -/
def core_banach_ok (M : Rnd) (d : Manifest) (eps cP : ℝ)
    (use_interval verified : Bool) : Except String (Prop × ℝ) := do
  let cp ← getKey "core_params" d.core_params
  let gamma ← getKey "gamma" cp.gamma
  let t ← getKey "t" cp.t
  if use_interval then
    let lhs := outward_mul M (gamma, gamma) (outward_add M (1.0, 1.0) (t * cP, t * cP))
    let rhs : ℝ × ℝ := (1.0 - eps, 1.0 - eps)
    pure (lhs.2 ≤ rhs.1, lhs.2 - rhs.1)
  else
    let lhs_num := gamma * (1.0 + t * cP)
    let rhs_num := 1.0 - eps
    pure ((if verified then le_verified M lhs_num rhs_num else lhs_num ≤ rhs_num),
      lhs_num - rhs_num)

/-- The body of the ledger_ok loop for a single step: verdict and gap. -/
noncomputable def ledger_step (M : Rnd) (eps cP sigma : ℝ) (use_interval verified : Bool)
    (step : Step) : Except String (Prop × ℝ) := do
  let g ← getKey "gamma" step.gamma
  let t ← getKey "t" step.t
  let dt ← getKey "delta_tau" step.delta_tau
  if use_interval then
    let lhs0 := outward_mul M (g, g) (outward_add M (1.0, 1.0) (t * cP, t * cP))
    let decay := outward_exp M (-sigma * dt, -sigma * dt)
    let lhs := outward_mul M lhs0 decay
    let rhs : ℝ × ℝ := (1.0 - eps, 1.0 - eps)
    pure (lhs.2 ≤ rhs.1, lhs.2 - rhs.1)
  else
    let lhs_num := g * (1.0 + t * cP) * Real.exp (-sigma * dt)
    let rhs_num := 1.0 - eps
    pure ((if verified then le_verified M lhs_num rhs_num else lhs_num ≤ rhs_num),
      lhs_num - rhs_num)

/-- The ledger_ok loop: the accumulator carries (ok_all, worst_gap). -/
noncomputable def ledger_loop (M : Rnd) (eps cP sigma : ℝ) (use_interval verified : Bool) :
    List Step → (Prop × ℝ) → Except String (Prop × ℝ)
  | [], acc => Except.ok acc
  | s :: rest, acc => do
    let r ← ledger_step M eps cP sigma use_interval verified s
    ledger_loop M eps cP sigma use_interval verified rest (acc.1 ∧ r.1, max acc.2 r.2)

/-- ledger_ok from verify_gaps.py: d.get("steps", []) folded from the
initial state ok_all = True, worst_gap = -1e9. -/
noncomputable def ledger_ok (M : Rnd) (d : Manifest) (eps cP sigma : ℝ)
    (use_interval verified : Bool) : Except String (Prop × ℝ) :=
  ledger_loop M eps cP sigma use_interval verified (d.steps.getD []) (True, -1e9)

/-- coupled_ok from verify_gaps.py. -/
noncomputable def coupled_ok (d : Manifest) : Except String (Prop × ℝ) := do
  let sp ← getKey "stream_params" d.stream_params
  let k1 ← getKey "kappa1" sp.kappa1
  let k2 ← getKey "kappa2" sp.kappa2
  let e1 ← getKey "eta1" sp.eta1
  let e2 ← getKey "eta2" sp.eta2
  let coupling := 2.0 * Real.sqrt (max e1 0.0 * max e2 0.0)
  let m := min k1 k2
  pure (m > coupling, if m > coupling then m - coupling else 0.0)

/-- compute_eps from verify_gaps.py: each witness field defaults
independently. -/
noncomputable def compute_eps (d : Manifest) : ℝ :=
  let alpha := d.alpha.getD 0.99
  let beta := d.beta.getD 1.0
  let sigma := d.sigma.getD 1.0
  let dtmin := d.delta_tau_min.getD 0.1
  alpha ^ beta * Real.exp (-sigma * dtmin)

/-- The eps selection in main: an explicit override wins, otherwise the
threshold is derived from the manifest. -/
noncomputable def select_eps (eps_arg : Option ℝ) (d : Manifest) : ℝ :=
  match eps_arg with
  | some e => e
  | none => compute_eps d

/-- The verdict of a check result; False when the check raised. -/
def okOf (e : Except String (Prop × ℝ)) : Prop :=
  (e.toOption.getD (False, 0)).1

/-- The margin of a check result; 0 when the check raised. -/
def marginOf (e : Except String (Prop × ℝ)) : ℝ :=
  (e.toOption.getD (False, 0)).2

/-- The check aborted with an input error instead of returning a verdict. -/
def isErr (e : Except String (Prop × ℝ)) : Prop :=
  ∃ msg, e = Except.error msg

/-- A manifest holding only a complete core_params block. -/
def mkCore (g t : ℝ) : Manifest :=
  { core_params := some ⟨some g, some t⟩ }

/-- A manifest holding only a steps list with all step fields present. -/
def mkSteps (l : List (ℝ × ℝ × ℝ)) : Manifest :=
  { steps := some (l.map fun x => ⟨some x.1, some x.2.1, some x.2.2⟩) }

/-- A manifest holding only a complete stream_params block. -/
def mkStream (k1 k2 e1 e2 : ℝ) : Manifest :=
  { stream_params := some ⟨some k1, some k2, some e1, some e2⟩ }

/-- A field the core_banach check requires is absent. -/
def missingCore (d : Manifest) : Prop :=
  d.core_params = none ∨
    ∃ cp, d.core_params = some cp ∧ (cp.gamma = none ∨ cp.t = none)

/-- A field the coupled_stream check requires is absent. -/
def missingStream (d : Manifest) : Prop :=
  d.stream_params = none ∨
    ∃ sp, d.stream_params = some sp ∧
      (sp.kappa1 = none ∨ sp.kappa2 = none ∨ sp.eta1 = none ∨ sp.eta2 = none)

/-- A field of a ledger step is absent. -/
def missingStepField (s : Step) : Prop :=
  s.gamma = none ∨ s.t = none ∨ s.delta_tau = none

/-! ### Helper lemmas -/

lemma okOf_ok (p : Prop × ℝ) : okOf (Except.ok p) = p.1 := rfl

lemma marginOf_ok (p : Prop × ℝ) : marginOf (Except.ok p) = p.2 := rfl

/-- Scalar-mode evaluation of the core check on a complete manifest. -/
lemma core_eval_scalar (M : Rnd) (g t eps cP : ℝ) (v : Bool) :
    core_banach_ok M (mkCore g t) eps cP false v =
      Except.ok
        ((if v then le_verified M (g * (1.0 + t * cP)) (1.0 - eps)
          else g * (1.0 + t * cP) ≤ 1.0 - eps),
         g * (1.0 + t * cP) - (1.0 - eps)) := rfl

/-- Interval-mode evaluation of the core check on a complete manifest. -/
lemma core_eval_interval (M : Rnd) (g t eps cP : ℝ) (v : Bool) :
    core_banach_ok M (mkCore g t) eps cP true v =
      Except.ok
        ((outward_mul M (g, g) (outward_add M (1.0, 1.0) (t * cP, t * cP))).2 ≤ 1.0 - eps,
         (outward_mul M (g, g) (outward_add M (1.0, 1.0) (t * cP, t * cP))).2 - (1.0 - eps)) :=
  rfl

/-- Scalar-mode evaluation of one ledger step with all fields present. -/
lemma ledger_step_eval_scalar (M : Rnd) (eps cP sigma g t dt : ℝ) (v : Bool) :
    ledger_step M eps cP sigma false v ⟨some g, some t, some dt⟩ =
      Except.ok
        ((if v then le_verified M (g * (1.0 + t * cP) * Real.exp (-sigma * dt)) (1.0 - eps)
          else g * (1.0 + t * cP) * Real.exp (-sigma * dt) ≤ 1.0 - eps),
         g * (1.0 + t * cP) * Real.exp (-sigma * dt) - (1.0 - eps)) := rfl

/-- Interval-mode evaluation of one ledger step with all fields present. -/
lemma ledger_step_eval_interval (M : Rnd) (eps cP sigma g t dt : ℝ) (v : Bool) :
    ledger_step M eps cP sigma true v ⟨some g, some t, some dt⟩ =
      Except.ok
        ((outward_mul M (outward_mul M (g, g) (outward_add M (1.0, 1.0) (t * cP, t * cP)))
            (outward_exp M (-sigma * dt, -sigma * dt))).2 ≤ 1.0 - eps,
         (outward_mul M (outward_mul M (g, g) (outward_add M (1.0, 1.0) (t * cP, t * cP)))
            (outward_exp M (-sigma * dt, -sigma * dt))).2 - (1.0 - eps)) := rfl

/-- The true product of scalars drawn from two intervals is at least the
least of the four exact corner products. -/
lemma corner_min_le_mul (al au bl bu x y : ℝ)
    (h1 : al ≤ x) (h2 : x ≤ au) (h3 : bl ≤ y) (h4 : y ≤ bu) :
    min (min (min (al * bl) (al * bu)) (au * bl)) (au * bu) ≤ x * y := by
  have hA : min (al * bl) (al * bu) ≤ al * y := by
    rcases le_total 0 al with h | h
    · exact (min_le_left _ _).trans (mul_le_mul_of_nonneg_left h3 h)
    · exact (min_le_right _ _).trans (mul_le_mul_of_nonpos_left h4 h)
  have hB : min (au * bl) (au * bu) ≤ au * y := by
    rcases le_total 0 au with h | h
    · exact (min_le_left _ _).trans (mul_le_mul_of_nonneg_left h3 h)
    · exact (min_le_right _ _).trans (mul_le_mul_of_nonpos_left h4 h)
  have hxy : min (al * y) (au * y) ≤ x * y := by
    rcases le_total 0 y with h | h
    · exact (min_le_left _ _).trans (mul_le_mul_of_nonneg_right h1 h)
    · exact (min_le_right _ _).trans (mul_le_mul_of_nonpos_right h2 h)
  refine le_trans (le_min ?_ ?_) hxy
  · exact ((min_le_left _ _).trans (min_le_left _ _)).trans hA
  · exact (le_min ((min_le_left _ _).trans (min_le_right _ _)) (min_le_right _ _)).trans hB

/-- The true product of scalars drawn from two intervals is at most the
greatest of the four exact corner products. -/
lemma mul_le_corner_max (al au bl bu x y : ℝ)
    (h1 : al ≤ x) (h2 : x ≤ au) (h3 : bl ≤ y) (h4 : y ≤ bu) :
    x * y ≤ max (max (max (al * bl) (al * bu)) (au * bl)) (au * bu) := by
  have hA : al * y ≤ max (al * bl) (al * bu) := by
    rcases le_total 0 al with h | h
    · exact (mul_le_mul_of_nonneg_left h4 h).trans (le_max_right _ _)
    · exact (mul_le_mul_of_nonpos_left h3 h).trans (le_max_left _ _)
  have hB : au * y ≤ max (au * bl) (au * bu) := by
    rcases le_total 0 au with h | h
    · exact (mul_le_mul_of_nonneg_left h4 h).trans (le_max_right _ _)
    · exact (mul_le_mul_of_nonpos_left h3 h).trans (le_max_left _ _)
  have hxy : x * y ≤ max (al * y) (au * y) := by
    rcases le_total 0 y with h | h
    · exact (mul_le_mul_of_nonneg_right h2 h).trans (le_max_right _ _)
    · exact (mul_le_mul_of_nonpos_right h1 h).trans (le_max_left _ _)
  refine hxy.trans (max_le ?_ ?_)
  · exact hA.trans ((le_max_left _ _).trans (le_max_left _ _))
  · exact hB.trans (max_le ((le_max_right _ _).trans (le_max_left _ _)) (le_max_right _ _))

/-- Enclosure soundness of the outward multiply. -/
lemma outward_mul_sound (M : Rnd) (a b : ℝ × ℝ) (x y : ℝ)
    (h1 : a.1 ≤ x) (h2 : x ≤ a.2) (h3 : b.1 ≤ y) (h4 : y ≤ b.2) :
    (outward_mul M a b).1 ≤ x * y ∧ x * y ≤ (outward_mul M a b).2 := by
  have l1 : min (min (min (M.fmul a.1 b.1) (M.fmul a.1 b.2)) (M.fmul a.2 b.1)) (M.fmul a.2 b.2) ≤
      M.fmul a.1 b.1 :=
    (min_le_left _ _).trans ((min_le_left _ _).trans (min_le_left _ _))
  have l2 : min (min (min (M.fmul a.1 b.1) (M.fmul a.1 b.2)) (M.fmul a.2 b.1)) (M.fmul a.2 b.2) ≤
      M.fmul a.1 b.2 :=
    (min_le_left _ _).trans ((min_le_left _ _).trans (min_le_right _ _))
  have l3 : min (min (min (M.fmul a.1 b.1) (M.fmul a.1 b.2)) (M.fmul a.2 b.1)) (M.fmul a.2 b.2) ≤
      M.fmul a.2 b.1 :=
    (min_le_left _ _).trans (min_le_right _ _)
  have l4 : min (min (min (M.fmul a.1 b.1) (M.fmul a.1 b.2)) (M.fmul a.2 b.1)) (M.fmul a.2 b.2) ≤
      M.fmul a.2 b.2 :=
    min_le_right _ _
  have u1 : M.fmul a.1 b.1 ≤
      max (max (max (M.fmul a.1 b.1) (M.fmul a.1 b.2)) (M.fmul a.2 b.1)) (M.fmul a.2 b.2) :=
    ((le_max_left _ _).trans (le_max_left _ _)).trans (le_max_left _ _)
  have u2 : M.fmul a.1 b.2 ≤
      max (max (max (M.fmul a.1 b.1) (M.fmul a.1 b.2)) (M.fmul a.2 b.1)) (M.fmul a.2 b.2) :=
    ((le_max_right _ _).trans (le_max_left _ _)).trans (le_max_left _ _)
  have u3 : M.fmul a.2 b.1 ≤
      max (max (max (M.fmul a.1 b.1) (M.fmul a.1 b.2)) (M.fmul a.2 b.1)) (M.fmul a.2 b.2) :=
    (le_max_right _ _).trans (le_max_left _ _)
  have u4 : M.fmul a.2 b.2 ≤
      max (max (max (M.fmul a.1 b.1) (M.fmul a.1 b.2)) (M.fmul a.2 b.1)) (M.fmul a.2 b.2) :=
    le_max_right _ _
  constructor
  · have k1 := (M.pred_mono _ _ l1).trans (M.pred_fmul a.1 b.1)
    have k2 := (M.pred_mono _ _ l2).trans (M.pred_fmul a.1 b.2)
    have k3 := (M.pred_mono _ _ l3).trans (M.pred_fmul a.2 b.1)
    have k4 := (M.pred_mono _ _ l4).trans (M.pred_fmul a.2 b.2)
    exact (le_min (le_min (le_min k1 k2) k3) k4).trans
      (corner_min_le_mul a.1 a.2 b.1 b.2 x y h1 h2 h3 h4)
  · have k1 := (M.fmul_succ a.1 b.1).trans (M.succ_mono _ _ u1)
    have k2 := (M.fmul_succ a.1 b.2).trans (M.succ_mono _ _ u2)
    have k3 := (M.fmul_succ a.2 b.1).trans (M.succ_mono _ _ u3)
    have k4 := (M.fmul_succ a.2 b.2).trans (M.succ_mono _ _ u4)
    exact (mul_le_corner_max a.1 a.2 b.1 b.2 x y h1 h2 h3 h4).trans
      (max_le (max_le (max_le k1 k2) k3) k4)

/-- Enclosure soundness of the outward add. -/
lemma outward_add_sound (M : Rnd) (a b : ℝ × ℝ) (x y : ℝ)
    (h1 : a.1 ≤ x) (h2 : x ≤ a.2) (h3 : b.1 ≤ y) (h4 : y ≤ b.2) :
    (outward_add M a b).1 ≤ x + y ∧ x + y ≤ (outward_add M a b).2 :=
  ⟨(M.pred_fadd a.1 b.1).trans (add_le_add h1 h3),
   (add_le_add h2 h4).trans (M.fadd_succ a.2 b.2)⟩

/-- Enclosure soundness of the outward exponential. -/
lemma outward_exp_sound (M : Rnd) (a : ℝ × ℝ) (x : ℝ)
    (h1 : a.1 ≤ x) (h2 : x ≤ a.2) :
    (outward_exp M a).1 ≤ Real.exp x ∧ Real.exp x ≤ (outward_exp M a).2 :=
  ⟨(M.pred_fexp a.1).trans (Real.exp_le_exp.mpr h1),
   (Real.exp_le_exp.mpr h2).trans (M.fexp_succ a.2)⟩

/-- Plain scalar-mode evaluation of one ledger step (verified = false). -/
lemma ledger_step_eval_plain (M : Rnd) (eps cP sigma g t dt : ℝ) :
    ledger_step M eps cP sigma false false ⟨some g, some t, some dt⟩ =
      Except.ok
        (g * (1.0 + t * cP) * Real.exp (-sigma * dt) ≤ 1.0 - eps,
         g * (1.0 + t * cP) * Real.exp (-sigma * dt) - (1.0 - eps)) := rfl

/-- Full description of the plain scalar-mode ledger loop over a list of
complete steps: the verdict is the accumulated conjunction and the worst
gap is the left fold of max over the per-step gaps. -/
lemma ledger_loop_scalar_spec (M : Rnd) (eps cP sigma : ℝ)
    (l : List (ℝ × ℝ × ℝ)) (P : Prop) (w : ℝ) :
    (okOf (ledger_loop M eps cP sigma false false
        (l.map fun x => ⟨some x.1, some x.2.1, some x.2.2⟩) (P, w)) ↔
      (P ∧ ∀ x ∈ l, x.1 * (1.0 + x.2.1 * cP) * Real.exp (-sigma * x.2.2) ≤ 1.0 - eps)) ∧
    marginOf (ledger_loop M eps cP sigma false false
        (l.map fun x => ⟨some x.1, some x.2.1, some x.2.2⟩) (P, w)) =
      l.foldl
        (fun acc x =>
          max acc (x.1 * (1.0 + x.2.1 * cP) * Real.exp (-sigma * x.2.2) - (1.0 - eps))) w := by
  induction l generalizing P w with
  | nil =>
    constructor
    · simp [ledger_loop, okOf, Except.toOption]
    · simp [ledger_loop, marginOf, Except.toOption]
  | cons x xs ih =>
    have hbind :
        ledger_loop M eps cP sigma false false
          ((x :: xs).map fun x => ⟨some x.1, some x.2.1, some x.2.2⟩) (P, w) =
        ledger_loop M eps cP sigma false false
          (xs.map fun x => ⟨some x.1, some x.2.1, some x.2.2⟩)
          (P ∧ (x.1 * (1.0 + x.2.1 * cP) * Real.exp (-sigma * x.2.2) ≤ 1.0 - eps),
           max w (x.1 * (1.0 + x.2.1 * cP) * Real.exp (-sigma * x.2.2) - (1.0 - eps))) := by
      simp only [List.map_cons, ledger_loop, ledger_step_eval_plain]
      rfl
    rw [hbind]
    rcases ih (P ∧ (x.1 * (1.0 + x.2.1 * cP) * Real.exp (-sigma * x.2.2) ≤ 1.0 - eps))
        (max w (x.1 * (1.0 + x.2.1 * cP) * Real.exp (-sigma * x.2.2) - (1.0 - eps))) with
      ⟨ih1, ih2⟩
    constructor
    · rw [ih1]
      simp only [List.forall_mem_cons]
      tauto
    · rw [ih2, List.foldl_cons]

/-- One interval-mode ledger step does not depend on the verified flag. -/
lemma ledger_step_interval_irrel (M : Rnd) (eps cP sigma : ℝ) (v w : Bool) (s : Step) :
    ledger_step M eps cP sigma true v s = ledger_step M eps cP sigma true w s := rfl

/-- The interval-mode ledger loop does not depend on the verified flag. -/
lemma ledger_loop_interval_irrel (M : Rnd) (eps cP sigma : ℝ) (v w : Bool)
    (l : List Step) (acc : Prop × ℝ) :
    ledger_loop M eps cP sigma true v l acc = ledger_loop M eps cP sigma true w l acc := by
  induction l generalizing acc with
  | nil => rfl
  | cons s rest ih =>
    have e1 : ledger_loop M eps cP sigma true v (s :: rest) acc =
        Except.bind (ledger_step M eps cP sigma true v s)
          (fun r => ledger_loop M eps cP sigma true v rest (acc.1 ∧ r.1, max acc.2 r.2)) := rfl
    have e2 : ledger_loop M eps cP sigma true w (s :: rest) acc =
        Except.bind (ledger_step M eps cP sigma true w s)
          (fun r => ledger_loop M eps cP sigma true w rest (acc.1 ∧ r.1, max acc.2 r.2)) := rfl
    rw [e1, e2, ledger_step_interval_irrel M eps cP sigma v w s]
    cases h : ledger_step M eps cP sigma true w s with
    | error e => rfl
    | ok r => exact ih _

/-- The interval-mode upper bound of the core left side is monotone in t
when gamma and c_P are nonnegative. -/
lemma core_interval_upper_mono_t (M : Rnd) (g t t2 cP : ℝ)
    (hg : 0 ≤ g) (hcP : 0 ≤ cP) (htt : t ≤ t2) :
    (outward_mul M (g, g) (outward_add M (1.0, 1.0) (t * cP, t * cP))).2 ≤
      (outward_mul M (g, g) (outward_add M (1.0, 1.0) (t2 * cP, t2 * cP))).2 := by
  have hx : t * cP ≤ t2 * cP := mul_le_mul_of_nonneg_right htt hcP
  have hf : M.fadd 1.0 (t * cP) ≤ M.fadd 1.0 (t2 * cP) := M.fadd_mono_right _ _ _ hx
  have hlo := M.pred_mono _ _ hf
  have hhi := M.succ_mono _ _ hf
  have m1 := M.fmul_mono_right g hg _ _ hlo
  have m2 := M.fmul_mono_right g hg _ _ hhi
  simp only [outward_mul, outward_add]
  exact M.succ_mono _ _ (max_le_max (max_le_max (max_le_max m1 m2) m1) m2)

/-- The interval-mode upper bound of the core left side is monotone in
gamma when t and c_P are nonnegative. -/
lemma core_interval_upper_mono_g (M : Rnd) (g g2 t cP : ℝ)
    (ht : 0 ≤ t) (hcP : 0 ≤ cP) (hgg : g ≤ g2) :
    (outward_mul M (g, g) (outward_add M (1.0, 1.0) (t * cP, t * cP))).2 ≤
      (outward_mul M (g2, g2) (outward_add M (1.0, 1.0) (t * cP, t * cP))).2 := by
  have hx : 0 ≤ t * cP := mul_nonneg ht hcP
  have h1 : (1.0 : ℝ) ≤ M.fadd 1.0 (t * cP) := M.le_fadd_right _ _ hx
  have hfa : 0 < M.fadd 1.0 (t * cP) :=
    lt_of_lt_of_le (by norm_num : (0 : ℝ) < 1.0) h1
  have hlo : 0 ≤ M.pred (M.fadd 1.0 (t * cP)) := M.pred_nonneg _ hfa
  have hhi : 0 ≤ M.succ (M.fadd 1.0 (t * cP)) := hfa.le.trans (M.le_succ _)
  have m1 := M.fmul_mono_left _ hlo _ _ hgg
  have m2 := M.fmul_mono_left _ hhi _ _ hgg
  simp only [outward_mul, outward_add]
  exact M.succ_mono _ _ (max_le_max (max_le_max (max_le_max m1 m2) m1) m2)

/-- Evaluation of the coupled check on a manifest with a complete
stream_params block. -/
lemma coupled_eval (d : Manifest) (k1 k2 e1 e2 : ℝ)
    (h : d.stream_params = some ⟨some k1, some k2, some e1, some e2⟩) :
    coupled_ok d =
      Except.ok (min k1 k2 > 2.0 * Real.sqrt (max e1 0.0 * max e2 0.0),
        if min k1 k2 > 2.0 * Real.sqrt (max e1 0.0 * max e2 0.0)
        then min k1 k2 - 2.0 * Real.sqrt (max e1 0.0 * max e2 0.0) else 0.0) := by
  unfold coupled_ok
  rw [h]
  rfl

/-! ### Claims -/

/-- C6: outward-rounding enclosure soundness.  For scalars x in a and
y in b, the true sum, product and exponential lie inside the intervals
returned by outward_add, outward_mul and outward_exp, for every rounding
model of the machine arithmetic inside the primitives. -/
theorem C6_outward_enclosure (M : Rnd) (a b : ℝ × ℝ) (x y : ℝ)
    (hax : a.1 ≤ x) (hxa : x ≤ a.2) (hby : b.1 ≤ y) (hyb : y ≤ b.2) :
    ((outward_add M a b).1 ≤ x + y ∧ x + y ≤ (outward_add M a b).2) ∧
    ((outward_mul M a b).1 ≤ x * y ∧ x * y ≤ (outward_mul M a b).2) ∧
    ((outward_exp M a).1 ≤ Real.exp x ∧ Real.exp x ≤ (outward_exp M a).2) :=
  ⟨outward_add_sound M a b x y hax hxa hby hyb,
   outward_mul_sound M a b x y hax hxa hby hyb,
   outward_exp_sound M a x hax hxa⟩

/-- Witness for C6 at concrete intervals and points. -/
theorem C6_outward_enclosure_witness :
    ((outward_add idRnd ((0 : ℝ), (0 : ℝ)) ((1 : ℝ), (1 : ℝ))).1 ≤ 0 + 1 ∧
      (0 : ℝ) + 1 ≤ (outward_add idRnd ((0 : ℝ), (0 : ℝ)) ((1 : ℝ), (1 : ℝ))).2) ∧
    ((outward_mul idRnd ((0 : ℝ), (0 : ℝ)) ((1 : ℝ), (1 : ℝ))).1 ≤ 0 * 1 ∧
      (0 : ℝ) * 1 ≤ (outward_mul idRnd ((0 : ℝ), (0 : ℝ)) ((1 : ℝ), (1 : ℝ))).2) ∧
    ((outward_exp idRnd ((0 : ℝ), (0 : ℝ))).1 ≤ Real.exp 0 ∧
      Real.exp 0 ≤ (outward_exp idRnd ((0 : ℝ), (0 : ℝ))).2) :=
  C6_outward_enclosure idRnd (0, 0) (1, 1) 0 1 le_rfl le_rfl le_rfl le_rfl

/-- C7: the interval well-formedness invariant lower ≤ upper is preserved
by outward_add, outward_mul and outward_exp on valid inputs. -/
theorem C7_interval_wf (M : Rnd) (a b : ℝ × ℝ) (ha : a.1 ≤ a.2) (hb : b.1 ≤ b.2) :
    (outward_add M a b).1 ≤ (outward_add M a b).2 ∧
    (outward_mul M a b).1 ≤ (outward_mul M a b).2 ∧
    (outward_exp M a).1 ≤ (outward_exp M a).2 := by
  refine ⟨?_, ?_, ?_⟩
  · exact (M.pred_fadd a.1 b.1).trans ((add_le_add ha hb).trans (M.fadd_succ a.2 b.2))
  · show M.pred (min (min (min (M.fmul a.1 b.1) (M.fmul a.1 b.2)) (M.fmul a.2 b.1))
        (M.fmul a.2 b.2)) ≤
      M.succ (max (max (max (M.fmul a.1 b.1) (M.fmul a.1 b.2)) (M.fmul a.2 b.1))
        (M.fmul a.2 b.2))
    refine (M.pred_le _).trans (le_trans ?_ (M.le_succ _))
    exact le_trans ((min_le_left _ _).trans ((min_le_left _ _).trans (min_le_left _ _)))
      (((le_max_left _ _).trans (le_max_left _ _)).trans (le_max_left _ _))
  · exact (M.pred_fexp a.1).trans ((Real.exp_le_exp.mpr ha).trans (M.fexp_succ a.2))

/-- Witness for C7 at concrete valid intervals. -/
theorem C7_interval_wf_witness :
    (outward_add idRnd ((0 : ℝ), (1 : ℝ)) ((2 : ℝ), (3 : ℝ))).1 ≤
      (outward_add idRnd ((0 : ℝ), (1 : ℝ)) ((2 : ℝ), (3 : ℝ))).2 ∧
    (outward_mul idRnd ((0 : ℝ), (1 : ℝ)) ((2 : ℝ), (3 : ℝ))).1 ≤
      (outward_mul idRnd ((0 : ℝ), (1 : ℝ)) ((2 : ℝ), (3 : ℝ))).2 ∧
    (outward_exp idRnd ((0 : ℝ), (1 : ℝ))).1 ≤
      (outward_exp idRnd ((0 : ℝ), (1 : ℝ))).2 :=
  C7_interval_wf idRnd (0, 1) (2, 3) (by norm_num) (by norm_num)

/-- C8: the threshold equals alpha^beta * exp(-sigma * delta_tau_min) with
each witness field defaulting independently (0.99, 1.0, 1.0, 0.1), and an
explicit eps override is used as given, bypassing the derivation. -/
theorem C8_eps_selection (d : Manifest) (e : ℝ) :
    select_eps (some e) d = e ∧
    select_eps none d =
      (d.alpha.getD 0.99) ^ (d.beta.getD 1.0) *
        Real.exp (-(d.sigma.getD 1.0) * (d.delta_tau_min.getD 0.1)) :=
  ⟨rfl, rfl⟩

/-- C10: in interval mode the verified flag has no effect: the core and
ledger checks return identical results for any two values of the flag. -/
theorem C10_interval_ignores_verified (M : Rnd) (d : Manifest) (eps cP sigma : ℝ)
    (v w : Bool) :
    core_banach_ok M d eps cP true v = core_banach_ok M d eps cP true w ∧
    ledger_ok M d eps cP sigma true v = ledger_ok M d eps cP sigma true w :=
  ⟨rfl, ledger_loop_interval_irrel M eps cP sigma v w _ _⟩

/-- C4: the coupled-streams verdict is pass exactly when
min(kappa1, kappa2) > 2 * sqrt(max(eta1,0) * max(eta2,0)); eps_eff is the
margin over the coupling term on pass, exactly 0.0 on fail, and strictly
positive whenever the verdict is pass. -/
theorem C4_coupled_spec (d : Manifest) (k1 k2 e1 e2 : ℝ)
    (h : d.stream_params = some ⟨some k1, some k2, some e1, some e2⟩) :
    (okOf (coupled_ok d) ↔ min k1 k2 > 2.0 * Real.sqrt (max e1 0.0 * max e2 0.0)) ∧
    (min k1 k2 > 2.0 * Real.sqrt (max e1 0.0 * max e2 0.0) →
      marginOf (coupled_ok d) = min k1 k2 - 2.0 * Real.sqrt (max e1 0.0 * max e2 0.0)) ∧
    (¬ min k1 k2 > 2.0 * Real.sqrt (max e1 0.0 * max e2 0.0) →
      marginOf (coupled_ok d) = 0.0) ∧
    (okOf (coupled_ok d) → 0 < marginOf (coupled_ok d)) := by
  rw [coupled_eval d k1 k2 e1 e2 h]
  refine ⟨Iff.rfl, ?_, ?_, ?_⟩
  · intro hgt
    show (if min k1 k2 > 2.0 * Real.sqrt (max e1 0.0 * max e2 0.0)
      then min k1 k2 - 2.0 * Real.sqrt (max e1 0.0 * max e2 0.0) else 0.0) = _
    rw [if_pos hgt]
  · intro hle
    show (if min k1 k2 > 2.0 * Real.sqrt (max e1 0.0 * max e2 0.0)
      then min k1 k2 - 2.0 * Real.sqrt (max e1 0.0 * max e2 0.0) else 0.0) = 0.0
    rw [if_neg hle]
  · intro hok
    have hgt : min k1 k2 > 2.0 * Real.sqrt (max e1 0.0 * max e2 0.0) := hok
    show (0 : ℝ) <
      (if min k1 k2 > 2.0 * Real.sqrt (max e1 0.0 * max e2 0.0)
      then min k1 k2 - 2.0 * Real.sqrt (max e1 0.0 * max e2 0.0) else 0.0)
    rw [if_pos hgt]
    exact sub_pos.mpr hgt

/-- Witness for C4: kappa = (3, 4), eta = (1, 1), coupling 2, margin 1. -/
theorem C4_coupled_spec_witness :
    okOf (coupled_ok (mkStream 3 4 1 1)) ∧ marginOf (coupled_ok (mkStream 3 4 1 1)) = 1 := by
  have h := C4_coupled_spec (mkStream 3 4 1 1) 3 4 1 1 rfl
  have hs : Real.sqrt (max (1 : ℝ) 0.0 * max (1 : ℝ) 0.0) = 1 := by
    rw [show max (1 : ℝ) 0.0 * max (1 : ℝ) 0.0 = 1 by norm_num]
    exact Real.sqrt_one
  have hgt : min (3 : ℝ) 4 > 2.0 * Real.sqrt (max (1 : ℝ) 0.0 * max (1 : ℝ) 0.0) := by
    rw [hs]; norm_num
  refine ⟨h.1.mpr hgt, ?_⟩
  rw [h.2.1 hgt, hs]
  norm_num

/-- C1: the spec requires a failing verdict on an empty steps list, but the
code returns the initial accumulator unchanged: a passing verdict True with
worst gap -1e9.  This evaluates the code at the failing input. -/
theorem C1_empty_ledger_passes :
    ledger_ok idRnd (mkSteps []) 0.5 1.0 1.0 false false = Except.ok (True, -1e9) ∧
    okOf (ledger_ok idRnd (mkSteps []) 0.5 1.0 1.0 false false) := by
  constructor
  · rfl
  · show True
    trivial

/-- C2: a manifest with no steps key is missing the field the ledger check
requires, yet the check does not abort: d.get with a default produces the
vacuous passing verdict.  For contrast, the same empty manifest does abort
with a KeyError for the core and coupled checks, as the claim demands. -/
theorem C2_missing_steps_no_abort :
    ledger_ok idRnd ({} : Manifest) 1.0 1.0 1.0 false false = Except.ok (True, -1e9) ∧
    core_banach_ok idRnd ({} : Manifest) 1.0 1.0 false false =
      Except.error "KeyError: core_params" ∧
    coupled_ok ({} : Manifest) = Except.error "KeyError: stream_params" :=
  ⟨rfl, rfl, rfl⟩

/-- C3 counterexample: at gamma = 0.5, t = 0, eps = 0, c_P = 1 the core
check returns margin lhs - rhs = -0.5, while rhs - lhs = 0.5: the returned
margin is not rhs - lhs. -/
theorem C3_margin_sign_cex :
    marginOf (core_banach_ok idRnd (mkCore 0.5 0.0) 0.0 1.0 false false) =
      0.5 * (1.0 + 0.0 * 1.0) - (1.0 - 0.0) ∧
    0.5 * (1.0 + 0.0 * 1.0) - (1.0 - 0.0) = -(0.5 : ℝ) ∧
    (1.0 - 0.0) - 0.5 * (1.0 + 0.0 * 1.0) = (0.5 : ℝ) ∧
    -(0.5 : ℝ) ≠ (0.5 : ℝ) :=
  ⟨rfl, by norm_num, by norm_num, by norm_num⟩

/-- C3 amended: in every mode the signed margin returned by the core check
and by each ledger step equals lhs - rhs, so a NEGATIVE margin means the
check passes with that much slack.  In scalar mode lhs and rhs are the
scalar sides of the inequality; in interval mode they are the outward upper
bound of the left side and the lower bound of the right side. -/
theorem C3_margin_is_lhs_minus_rhs (M : Rnd) (d : Manifest)
    (g t eps cP sigma gs ts dts : ℝ) (v : Bool)
    (h : d.core_params = some ⟨some g, some t⟩) :
    marginOf (core_banach_ok M d eps cP false v) =
      g * (1.0 + t * cP) - (1.0 - eps) ∧
    marginOf (ledger_step M eps cP sigma false v ⟨some gs, some ts, some dts⟩) =
      gs * (1.0 + ts * cP) * Real.exp (-sigma * dts) - (1.0 - eps) ∧
    marginOf (core_banach_ok M d eps cP true v) =
      (outward_mul M (g, g) (outward_add M (1.0, 1.0) (t * cP, t * cP))).2 - (1.0 - eps) ∧
    marginOf (ledger_step M eps cP sigma true v ⟨some gs, some ts, some dts⟩) =
      (outward_mul M (outward_mul M (gs, gs) (outward_add M (1.0, 1.0) (ts * cP, ts * cP)))
        (outward_exp M (-sigma * dts, -sigma * dts))).2 - (1.0 - eps) := by
  refine ⟨?_, ?_, ?_, ?_⟩
  · have he : core_banach_ok M d eps cP false v =
        core_banach_ok M (mkCore g t) eps cP false v := by
      unfold core_banach_ok
      rw [h]
      rfl
    rw [he, core_eval_scalar]
    rfl
  · rw [ledger_step_eval_scalar]
    rfl
  · have he : core_banach_ok M d eps cP true v =
        core_banach_ok M (mkCore g t) eps cP true v := by
      unfold core_banach_ok
      rw [h]
      rfl
    rw [he, core_eval_interval]
    rfl
  · rw [ledger_step_eval_interval]
    rfl

/-- Witness for the amended C3 at concrete parameters in both modes. -/
theorem C3_margin_witness :
    marginOf (core_banach_ok idRnd (mkCore 2.0 3.0) 0.0 1.0 false false) =
      2.0 * (1.0 + 3.0 * 1.0) - (1.0 - 0.0) ∧
    marginOf (ledger_step idRnd 0.0 1.0 1.0 false false ⟨some 2.0, some 0.0, some 0.0⟩) =
      2.0 * (1.0 + 0.0 * 1.0) * Real.exp (-1.0 * 0.0) - (1.0 - 0.0) ∧
    marginOf (core_banach_ok idRnd (mkCore 2.0 3.0) 0.0 1.0 true false) =
      (outward_mul idRnd (2.0, 2.0)
        (outward_add idRnd (1.0, 1.0) (3.0 * 1.0, 3.0 * 1.0))).2 - (1.0 - 0.0) ∧
    marginOf (ledger_step idRnd 0.0 1.0 1.0 true false ⟨some 2.0, some 0.0, some 0.0⟩) =
      (outward_mul idRnd
        (outward_mul idRnd (2.0, 2.0) (outward_add idRnd (1.0, 1.0) (0.0 * 1.0, 0.0 * 1.0)))
        (outward_exp idRnd (-1.0 * 0.0, -1.0 * 0.0))).2 - (1.0 - 0.0) :=
  C3_margin_is_lhs_minus_rhs idRnd (mkCore 2.0 3.0) 2.0 3.0 0.0 1.0 1.0 2.0 0.0 0.0 false rfl

/-- C5 counterexample: with one step whose gap is -2e9 - 1, below the -1e9
seed of the loop, the returned diagnostic is -1e9, not the maximum of the
per-step gaps. -/
theorem C5_sentinel_cex :
    marginOf (ledger_ok idRnd (mkSteps [(-2e9, 0.0, 0.0)]) 0.0 1.0 1.0 false false) =
      -1e9 ∧
    (-2e9 : ℝ) * (1.0 + 0.0 * 1.0) * Real.exp (-1.0 * 0.0) - (1.0 - 0.0) = -2e9 - 1 ∧
    (-1e9 : ℝ) ≠ -2e9 - 1 := by
  have hgap : (-2e9 : ℝ) * (1.0 + 0.0 * 1.0) * Real.exp (-1.0 * 0.0) - (1.0 - 0.0) =
      -2e9 - 1 := by
    norm_num
  refine ⟨?_, hgap, by norm_num⟩
  have hrw : marginOf (ledger_ok idRnd (mkSteps [(-2e9, 0.0, 0.0)]) 0.0 1.0 1.0 false false) =
      marginOf (ledger_loop idRnd 0.0 1.0 1.0 false false
        ([((-2e9 : ℝ), (0.0 : ℝ), (0.0 : ℝ))].map fun x => ⟨some x.1, some x.2.1, some x.2.2⟩)
        (True, -1e9)) := rfl
  rw [hrw, (ledger_loop_scalar_spec idRnd 0.0 1.0 1.0 [(-2e9, 0.0, 0.0)] True (-1e9)).2]
  simp only [List.foldl_cons, List.foldl_nil]
  rw [hgap]
  exact max_eq_left (by norm_num)

/-- C5 amended: for a manifest with a steps list of complete steps, the
plain scalar-mode ledger verdict is the conjunction of the per-step
verdicts gamma_k * (1 + t_k * c_P) * exp(-sigma * delta_tau_k) ≤ 1 - eps
against the shared eps, c_P and sigma, and the returned diagnostic is the
maximum of the per-step signed gaps and the -1e9 seed of the loop. -/
theorem C5_ledger_and_max (M : Rnd) (d : Manifest) (l : List (ℝ × ℝ × ℝ))
    (eps cP sigma : ℝ)
    (h : d.steps = some (l.map fun x => ⟨some x.1, some x.2.1, some x.2.2⟩)) :
    (okOf (ledger_ok M d eps cP sigma false false) ↔
      ∀ x ∈ l, x.1 * (1.0 + x.2.1 * cP) * Real.exp (-sigma * x.2.2) ≤ 1.0 - eps) ∧
    marginOf (ledger_ok M d eps cP sigma false false) =
      l.foldl
        (fun acc x =>
          max acc (x.1 * (1.0 + x.2.1 * cP) * Real.exp (-sigma * x.2.2) - (1.0 - eps)))
        (-1e9) := by
  have hrw : ledger_ok M d eps cP sigma false false =
      ledger_loop M eps cP sigma false false
        (l.map fun x => ⟨some x.1, some x.2.1, some x.2.2⟩) (True, -1e9) := by
    unfold ledger_ok
    rw [h]
    rfl
  rcases ledger_loop_scalar_spec M eps cP sigma l True (-1e9) with ⟨h1, h2⟩
  rw [hrw]
  exact ⟨h1.trans (iff_of_eq (true_and _)), h2⟩

/-- Witness for the amended C5 at a one-step ledger. -/
theorem C5_ledger_and_max_witness :
    (okOf (ledger_ok idRnd (mkSteps [(0.5, 0.0, 0.0)]) 0.0 1.0 1.0 false false) ↔
      ∀ x ∈ [((0.5 : ℝ), (0.0 : ℝ), (0.0 : ℝ))],
        x.1 * (1.0 + x.2.1 * 1.0) * Real.exp (-1.0 * x.2.2) ≤ 1.0 - 0.0) ∧
    marginOf (ledger_ok idRnd (mkSteps [(0.5, 0.0, 0.0)]) 0.0 1.0 1.0 false false) =
      [((0.5 : ℝ), (0.0 : ℝ), (0.0 : ℝ))].foldl
        (fun acc x =>
          max acc (x.1 * (1.0 + x.2.1 * 1.0) * Real.exp (-1.0 * x.2.2) - (1.0 - 0.0)))
        (-1e9) :=
  C5_ledger_and_max idRnd (mkSteps [(0.5, 0.0, 0.0)]) [(0.5, 0.0, 0.0)] 0.0 1.0 1.0 rfl

/-- C9 counterexample: with t = 2, c_P = -1, eps = 0 in plain scalar mode,
gamma = -2 fails the core check but raising gamma to 2 passes it:
increasing gamma turned a failing verdict into a passing one. -/
theorem C9_mono_cex :
    okOf (core_banach_ok idRnd (mkCore 2.0 2.0) 0.0 (-1.0) false false) ∧
    ¬ okOf (core_banach_ok idRnd (mkCore (-2.0) 2.0) 0.0 (-1.0) false false) ∧
    (-2.0 : ℝ) ≤ 2.0 := by
  refine ⟨?_, ?_, by norm_num⟩
  · show (2.0 : ℝ) * (1.0 + 2.0 * (-1.0)) ≤ 1.0 - 0.0
    norm_num
  · show ¬ ((-2.0 : ℝ) * (1.0 + 2.0 * (-1.0)) ≤ 1.0 - 0.0)
    norm_num

/-- C9 amended: for nonnegative gamma, t and c_P, in every mode, increasing
t or gamma never turns a failing core verdict into a passing one
(equivalently, a pass at the larger parameter implies a pass at the
smaller one). -/
theorem C9_mono_nonneg (M : Rnd) (g g2 t t2 eps cP : ℝ) (ui v : Bool)
    (hg : 0 ≤ g) (ht : 0 ≤ t) (hcP : 0 ≤ cP) (hgg : g ≤ g2) (htt : t ≤ t2) :
    (okOf (core_banach_ok M (mkCore g2 t) eps cP ui v) →
      okOf (core_banach_ok M (mkCore g t) eps cP ui v)) ∧
    (okOf (core_banach_ok M (mkCore g t2) eps cP ui v) →
      okOf (core_banach_ok M (mkCore g t) eps cP ui v)) := by
  have h0 : (0 : ℝ) ≤ 1.0 + t * cP := by
    have := mul_nonneg ht hcP
    norm_num
    linarith
  have hlg : g * (1.0 + t * cP) ≤ g2 * (1.0 + t * cP) :=
    mul_le_mul_of_nonneg_right hgg h0
  have hlt : g * (1.0 + t * cP) ≤ g * (1.0 + t2 * cP) := by
    apply mul_le_mul_of_nonneg_left _ hg
    have := mul_le_mul_of_nonneg_right htt hcP
    linarith
  cases ui
  case false =>
    cases v
    case false =>
      constructor
      · intro hok
        have hok2 : g2 * (1.0 + t * cP) ≤ 1.0 - eps := hok
        show g * (1.0 + t * cP) ≤ 1.0 - eps
        exact hlg.trans hok2
      · intro hok
        have hok2 : g * (1.0 + t2 * cP) ≤ 1.0 - eps := hok
        show g * (1.0 + t * cP) ≤ 1.0 - eps
        exact hlt.trans hok2
    case true =>
      constructor
      · intro hok
        have hok2 : M.pred (g2 * (1.0 + t * cP)) ≤ M.succ (1.0 - eps) := hok
        show M.pred (g * (1.0 + t * cP)) ≤ M.succ (1.0 - eps)
        exact (M.pred_mono _ _ hlg).trans hok2
      · intro hok
        have hok2 : M.pred (g * (1.0 + t2 * cP)) ≤ M.succ (1.0 - eps) := hok
        show M.pred (g * (1.0 + t * cP)) ≤ M.succ (1.0 - eps)
        exact (M.pred_mono _ _ hlt).trans hok2
  case true =>
    constructor
    · intro hok
      have hok2 :
          (outward_mul M (g2, g2) (outward_add M (1.0, 1.0) (t * cP, t * cP))).2 ≤
            1.0 - eps := hok
      show (outward_mul M (g, g) (outward_add M (1.0, 1.0) (t * cP, t * cP))).2 ≤ 1.0 - eps
      exact (core_interval_upper_mono_g M g g2 t cP ht hcP hgg).trans hok2
    · intro hok
      have hok2 :
          (outward_mul M (g, g) (outward_add M (1.0, 1.0) (t2 * cP, t2 * cP))).2 ≤
            1.0 - eps := hok
      show (outward_mul M (g, g) (outward_add M (1.0, 1.0) (t * cP, t * cP))).2 ≤ 1.0 - eps
      exact (core_interval_upper_mono_t M g t t2 cP hg hcP htt).trans hok2

/-- Witness for the amended C9: monotonicity applied at concrete
nonnegative parameters yields the pass at the smaller gamma. -/
theorem C9_mono_nonneg_witness :
    okOf (core_banach_ok idRnd (mkCore 0.5 0.0) 0.0 1.0 false false) := by
  have happ := C9_mono_nonneg idRnd 0.5 0.6 0.0 0.0 0.0 1.0 false false
    (by norm_num) (by norm_num) (by norm_num) (by norm_num) le_rfl
  apply happ.1
  show (0.6 : ℝ) * (1.0 + 0.0 * 1.0) ≤ 1.0 - 0.0
  norm_num
